import Mathlib

/-!
Shallow embedding of the Longevity Quotient (LQ) v1.1 scoring core
(`src/LQv1_1.py`).  Python floats are modelled as real numbers, `math.erf`
as the exact error function (defined below via the Gaussian integral), and
fallible Python code (dictionary lookup, `math.log` domain errors) as
`Except String`.
-/

open MeasureTheory Set

namespace LQ

/-- The 20 variable identifiers of the calculator, in the order they appear
in the source's `VAR_ORDER`. -/
inductive Var
  | ogtt_2h | apob | vo2max | crp | bmi | packyrs | moca | mvpa | cac
  | hrv | phq9 | alt | egfr | bmd_t | truage_delta | small_hdl | rem_pct
  | grip | swls | rpdqs
  deriving DecidableEq

/-- Reference parameters for one z-score variable: mean `M`, standard
deviation `S`, direction `D` (the source stores these as a dict per key). -/
structure VarSpec where
  M : ℝ
  S : ℝ
  D : ℝ

/-- The reference table `REF` of the source (lines 21-40): a partial map
from variable identifiers to `(M, S, D)`.  The keys `cac` and `rpdqs` have
no entry in the source dict. -/
def REF : Var → Option VarSpec
  | .ogtt_2h      => some ⟨120, 35, -1⟩
  | .apob         => some ⟨90, 25, -1⟩
  | .vo2max       => some ⟨36, 8, 1⟩
  | .crp          => some ⟨1.5, 0.8, -1⟩
  | .bmi          => some ⟨26, 5, -1⟩
  | .packyrs      => some ⟨2, 5, -1⟩
  | .moca         => some ⟨27, 2, 1⟩
  | .mvpa         => some ⟨150, 75, 1⟩
  | .hrv          => some ⟨35, 15, 1⟩
  | .phq9         => some ⟨4, 4, -1⟩
  | .alt          => some ⟨25, 12, -1⟩
  | .egfr         => some ⟨95, 15, 1⟩
  | .bmd_t        => some ⟨-0.5, 1, 1⟩
  | .truage_delta => some ⟨2, 5, -1⟩
  | .small_hdl    => some ⟨25, 5, 1⟩
  | .rem_pct      => some ⟨20, 5, 1⟩
  | .grip         => some ⟨38, 10, 1⟩
  | .swls         => some ⟨24, 6, 1⟩
  | .cac          => none
  | .rpdqs        => none

/-- The source's `VAR_ORDER` list (lines 41-45). -/
def VAR_ORDER : List Var :=
  [.ogtt_2h, .apob, .vo2max, .crp, .bmi, .packyrs, .moca, .mvpa, .cac,
   .hrv, .phq9, .alt, .egfr, .bmd_t, .truage_delta, .small_hdl, .rem_pct,
   .grip, .swls, .rpdqs]

/-- The error function, modelling Python's `math.erf` exactly:
`erf x = (2/√π) · ∫ t in 0..x, exp (-t²)`. -/
noncomputable def erf (x : ℝ) : ℝ :=
  (2 / Real.sqrt Real.pi) * ∫ t in (0:ℝ)..x, Real.exp (-(t ^ 2))

/-- The source's `normal_cdf` (lines 55-56): `0.5 * (1 + erf (z / √2))`. -/
noncomputable def normal_cdf (z : ℝ) : ℝ :=
  0.5 * (1 + erf (z / Real.sqrt 2))

/-- The source's `clamp` (lines 58-59): `max lo (min hi v)`; every call in
the source passes `lo = 0`, `hi = 100` (the Python defaults) except the
final LQ clamp which is written out inline. -/
def clamp (v lo hi : ℝ) : ℝ := max lo (min hi v)

/-- The source's `normalize_z` (lines 61-63).  A missing reference entry is
a Python `KeyError`, modelled as an `Except.error`. -/
noncomputable def normalize_z (x : ℝ) (key : Var) : Except String ℝ :=
  match REF key with
  | some p => .ok (clamp (100 * normal_cdf (p.D * ((x - p.M) / p.S))) 0 100)
  | none => .error "KeyError"

/-- The source's `normalize_rpdqs` (line 65): `clamp((x/52)*100)`. -/
noncomputable def normalize_rpdqs (x : ℝ) : ℝ := clamp (x / 52 * 100) 0 100

/-- The source's `normalize_cac` (lines 67-74): the `"ln"` method applies a
log-normal-CDF transform (where `math.log` raises a domain error unless
`value + 1 > 0`); EVERY other method string falls through to the piecewise
branch.  The source performs no method-name or sign validation. -/
noncomputable def normalize_cac (value : ℝ) (method : String) : Except String ℝ :=
  if method = "ln" then
    if 0 < value + 1 then
      .ok (clamp (100 * normal_cdf (-(Real.log (value + 1) - Real.log 100))) 0 100)
    else .error "math domain error"
  else
    if value = 0 then .ok 100
    else if 400 ≤ value then .ok 0
    else if value ≤ 100 then .ok (clamp (100 - 0.2 * value) 0 100)
    else .ok (clamp (50 - 0.1 * (value - 100)) 0 100)

/-- Output record of `compute_single`: the 20 normalized sub-scores `N`,
the composite, and the final LQ. -/
structure ScoreResult where
  N : Var → ℝ
  composite : ℝ
  LQ : ℝ

/-- The source's `compute_single` (lines 76-102), normalizing each variable
in source order, then `comp = sum(N[v] for v in VAR_ORDER)/20` and
`LQ = max(300, min(850, 300 + 5.5*comp))`. -/
noncomputable def compute_single (inputs : Var → ℝ) (cac_method : String) :
    Except String ScoreResult := do
  let n_ogtt_2h ← normalize_z (inputs .ogtt_2h) .ogtt_2h
  let n_apob ← normalize_z (inputs .apob) .apob
  let n_vo2max ← normalize_z (inputs .vo2max) .vo2max
  let n_crp ← normalize_z (inputs .crp) .crp
  let n_bmi ← normalize_z (inputs .bmi) .bmi
  let n_packyrs ← normalize_z (inputs .packyrs) .packyrs
  let n_moca ← normalize_z (inputs .moca) .moca
  let n_mvpa ← normalize_z (inputs .mvpa) .mvpa
  let n_cac ← normalize_cac (inputs .cac) cac_method
  let n_hrv ← normalize_z (inputs .hrv) .hrv
  let n_phq9 ← normalize_z (inputs .phq9) .phq9
  let n_alt ← normalize_z (inputs .alt) .alt
  let n_egfr ← normalize_z (inputs .egfr) .egfr
  let n_bmd_t ← normalize_z (inputs .bmd_t) .bmd_t
  let n_truage_delta ← normalize_z (inputs .truage_delta) .truage_delta
  let n_small_hdl ← normalize_z (inputs .small_hdl) .small_hdl
  let n_rem_pct ← normalize_z (inputs .rem_pct) .rem_pct
  let n_grip ← normalize_z (inputs .grip) .grip
  let n_swls ← normalize_z (inputs .swls) .swls
  let n_rpdqs := normalize_rpdqs (inputs .rpdqs)
  let N : Var → ℝ := fun v =>
    match v with
    | .ogtt_2h => n_ogtt_2h
    | .apob => n_apob
    | .vo2max => n_vo2max
    | .crp => n_crp
    | .bmi => n_bmi
    | .packyrs => n_packyrs
    | .moca => n_moca
    | .mvpa => n_mvpa
    | .cac => n_cac
    | .hrv => n_hrv
    | .phq9 => n_phq9
    | .alt => n_alt
    | .egfr => n_egfr
    | .bmd_t => n_bmd_t
    | .truage_delta => n_truage_delta
    | .small_hdl => n_small_hdl
    | .rem_pct => n_rem_pct
    | .grip => n_grip
    | .swls => n_swls
    | .rpdqs => n_rpdqs
  let comp := (VAR_ORDER.map N).sum / 20
  let lq := max 300 (min 850 (300 + 5.5 * comp))
  return ⟨N, comp, lq⟩

/-- Value of the z-score normalizer on a key that has a reference entry
(and a junk value `0` on the two keys that do not); used to describe the
record produced by a successful `compute_single` run. -/
noncomputable def zScore (x : ℝ) (key : Var) : ℝ :=
  match REF key with
  | some p => clamp (100 * normal_cdf (p.D * ((x - p.M) / p.S))) 0 100
  | none => 0

/-- The sub-score function a successful `compute_single` run produces, as a
function of the inputs and of the (already unwrapped) CAC sub-score `c`. -/
noncomputable def mkN (inputs : Var → ℝ) (c : ℝ) : Var → ℝ := fun v =>
  match v with
  | .ogtt_2h => zScore (inputs .ogtt_2h) .ogtt_2h
  | .apob => zScore (inputs .apob) .apob
  | .vo2max => zScore (inputs .vo2max) .vo2max
  | .crp => zScore (inputs .crp) .crp
  | .bmi => zScore (inputs .bmi) .bmi
  | .packyrs => zScore (inputs .packyrs) .packyrs
  | .moca => zScore (inputs .moca) .moca
  | .mvpa => zScore (inputs .mvpa) .mvpa
  | .cac => c
  | .hrv => zScore (inputs .hrv) .hrv
  | .phq9 => zScore (inputs .phq9) .phq9
  | .alt => zScore (inputs .alt) .alt
  | .egfr => zScore (inputs .egfr) .egfr
  | .bmd_t => zScore (inputs .bmd_t) .bmd_t
  | .truage_delta => zScore (inputs .truage_delta) .truage_delta
  | .small_hdl => zScore (inputs .small_hdl) .small_hdl
  | .rem_pct => zScore (inputs .rem_pct) .rem_pct
  | .grip => zScore (inputs .grip) .grip
  | .swls => zScore (inputs .swls) .swls
  | .rpdqs => normalize_rpdqs (inputs .rpdqs)

/-- The record a successful `compute_single` run produces. -/
noncomputable def mkResult (inputs : Var → ℝ) (c : ℝ) : ScoreResult :=
  ⟨mkN inputs c, (VAR_ORDER.map (mkN inputs c)).sum / 20,
   max 300 (min 850 (300 + 5.5 * ((VAR_ORDER.map (mkN inputs c)).sum / 20)))⟩

lemma compute_single_eq (i : Var → ℝ) (m : String) :
    compute_single i m =
      Except.bind (normalize_cac (i .cac) m) (fun c => Except.ok (mkResult i c)) := by
  unfold compute_single
  cases hc : normalize_cac (i .cac) m with
  | error e => rfl
  | ok c => rfl

lemma compute_single_ok {i : Var → ℝ} {m : String} {r : ScoreResult}
    (h : compute_single i m = .ok r) :
    ∃ c, normalize_cac (i .cac) m = .ok c ∧ r = mkResult i c := by
  rw [compute_single_eq] at h
  cases hc : normalize_cac (i .cac) m with
  | error e => rw [hc] at h; exact absurd h (by simp [Except.bind])
  | ok c =>
      rw [hc] at h
      simp only [Except.bind, Except.ok.injEq] at h
      exact ⟨c, rfl, h.symm⟩

lemma clamp_mem (v : ℝ) {lo hi : ℝ} (h : lo ≤ hi) :
    lo ≤ clamp v lo hi ∧ clamp v lo hi ≤ hi :=
  ⟨le_max_left _ _, max_le h (min_le_left _ _)⟩

lemma clamp_of_mem {v lo hi : ℝ} (h1 : lo ≤ v) (h2 : v ≤ hi) : clamp v lo hi = v := by
  unfold clamp
  rw [min_eq_right h2, max_eq_right h1]

lemma clamp_le_clamp {v w : ℝ} (lo hi : ℝ) (h : v ≤ w) :
    clamp v lo hi ≤ clamp w lo hi :=
  max_le_max le_rfl (min_le_min le_rfl h)

lemma zScore_mem (x : ℝ) (key : Var) : 0 ≤ zScore x key ∧ zScore x key ≤ 100 := by
  unfold zScore
  cases h : REF key with
  | some p => exact clamp_mem _ (by norm_num)
  | none => norm_num

lemma normalize_cac_ok_mem {v : ℝ} {m : String} {c : ℝ}
    (h : normalize_cac v m = .ok c) : 0 ≤ c ∧ c ≤ 100 := by
  unfold normalize_cac at h
  split_ifs at h <;>
    simp only [Except.ok.injEq, reduceCtorEq] at h <;>
    subst h
  · exact clamp_mem _ (by norm_num)
  · norm_num
  · norm_num
  · exact clamp_mem _ (by norm_num)
  · exact clamp_mem _ (by norm_num)

lemma mkN_mem (i : Var → ℝ) {c : ℝ} (hc0 : 0 ≤ c) (hc1 : c ≤ 100) (v : Var) :
    0 ≤ mkN i c v ∧ mkN i c v ≤ 100 := by
  cases v <;> first
    | exact ⟨hc0, hc1⟩
    | exact clamp_mem _ (by norm_num)

lemma map_sum_expand (N : Var → ℝ) : (VAR_ORDER.map N).sum =
    N .ogtt_2h + N .apob + N .vo2max + N .crp + N .bmi + N .packyrs + N .moca +
    N .mvpa + N .cac + N .hrv + N .phq9 + N .alt + N .egfr + N .bmd_t +
    N .truage_delta + N .small_hdl + N .rem_pct + N .grip + N .swls + N .rpdqs := by
  simp [VAR_ORDER]
  ring

/-- Concrete test input: every raw variable set to `0`. -/
noncomputable def testInputs : Var → ℝ := fun _ => 0

/-- Concrete test input agreeing with `testInputs` everywhere except `bmi`. -/
noncomputable def testInputs2 : Var → ℝ := fun v => if v = Var.bmi then 1 else 0

lemma test_run : compute_single testInputs "piecewise" = .ok (mkResult testInputs 100) := by
  rw [compute_single_eq]
  have hc : normalize_cac (testInputs Var.cac) "piecewise" = Except.ok 100 := by
    show normalize_cac 0 "piecewise" = Except.ok 100
    unfold normalize_cac
    rw [if_neg (by decide), if_pos rfl]
  rw [hc]
  rfl

lemma test_run2 : compute_single testInputs2 "piecewise" = .ok (mkResult testInputs2 100) := by
  rw [compute_single_eq]
  have hc : normalize_cac (testInputs2 Var.cac) "piecewise" = Except.ok 100 := by
    show normalize_cac 0 "piecewise" = Except.ok 100
    unfold normalize_cac
    rw [if_neg (by decide), if_pos rfl]
  rw [hc]
  rfl

/-- C1: for every raw input record on which `compute_single` succeeds, the
returned record satisfies `composite = (sum of the 20 normalized
sub-scores) / 20` and `LQ = clamp(300 + 5.5 * composite, 300, 850)`,
exactly. -/
theorem C1_composite_and_LQ_formula (i : Var → ℝ) (m : String) (r : ScoreResult)
    (h : compute_single i m = .ok r) :
    r.composite = (VAR_ORDER.map r.N).sum / 20 ∧
    r.LQ = clamp (300 + 5.5 * r.composite) 300 850 := by
  obtain ⟨c, hc, rfl⟩ := compute_single_ok h
  exact ⟨rfl, rfl⟩

/-- Witness for C1: the all-zero input record with the piecewise CAC
method. -/
theorem C1_composite_and_LQ_formula_w :
    (mkResult testInputs 100).composite =
      (VAR_ORDER.map (mkResult testInputs 100).N).sum / 20 ∧
    (mkResult testInputs 100).LQ =
      clamp (300 + 5.5 * (mkResult testInputs 100).composite) 300 850 :=
  C1_composite_and_LQ_formula testInputs "piecewise" (mkResult testInputs 100) test_run

/-- C2: for every raw input record on which `compute_single` succeeds, each
of the 20 normalized sub-scores in the output lies in `[0, 100]`. -/
theorem C2_subscores_in_unit_range (i : Var → ℝ) (m : String) (r : ScoreResult)
    (h : compute_single i m = .ok r) (v : Var) : 0 ≤ r.N v ∧ r.N v ≤ 100 := by
  obtain ⟨c, hc, rfl⟩ := compute_single_ok h
  obtain ⟨hc0, hc1⟩ := normalize_cac_ok_mem hc
  exact mkN_mem i hc0 hc1 v

/-- Witness for C2: the CAC sub-score of the all-zero input record scored
with the piecewise CAC method. -/
theorem C2_subscores_in_unit_range_w :
    0 ≤ (mkResult testInputs 100).N Var.cac ∧ (mkResult testInputs 100).N Var.cac ≤ 100 :=
  C2_subscores_in_unit_range testInputs "piecewise" (mkResult testInputs 100) test_run Var.cac

set_option maxHeartbeats 2000000 in
/-- C9: for every raw input record on which `compute_single` succeeds, the
composite lies in `[0, 100]`, so the clamp in the LQ formula never alters
the value — `LQ = 300 + 5.5 * composite` exactly — and `850` is attained
only when every one of the 20 sub-scores equals `100`. -/
theorem C9_LQ_clamp_never_binds (i : Var → ℝ) (m : String) (r : ScoreResult)
    (h : compute_single i m = .ok r) :
    (0 ≤ r.composite ∧ r.composite ≤ 100) ∧
    r.LQ = 300 + 5.5 * r.composite ∧
    (r.LQ = 850 → ∀ v, r.N v = 100) := by
  obtain ⟨c, hc, rfl⟩ := compute_single_ok h
  obtain ⟨hc0, hc1⟩ := normalize_cac_ok_mem hc
  obtain ⟨a1, b1⟩ := mkN_mem i hc0 hc1 Var.ogtt_2h
  obtain ⟨a2, b2⟩ := mkN_mem i hc0 hc1 Var.apob
  obtain ⟨a3, b3⟩ := mkN_mem i hc0 hc1 Var.vo2max
  obtain ⟨a4, b4⟩ := mkN_mem i hc0 hc1 Var.crp
  obtain ⟨a5, b5⟩ := mkN_mem i hc0 hc1 Var.bmi
  obtain ⟨a6, b6⟩ := mkN_mem i hc0 hc1 Var.packyrs
  obtain ⟨a7, b7⟩ := mkN_mem i hc0 hc1 Var.moca
  obtain ⟨a8, b8⟩ := mkN_mem i hc0 hc1 Var.mvpa
  obtain ⟨a9, b9⟩ := mkN_mem i hc0 hc1 Var.cac
  obtain ⟨a10, b10⟩ := mkN_mem i hc0 hc1 Var.hrv
  obtain ⟨a11, b11⟩ := mkN_mem i hc0 hc1 Var.phq9
  obtain ⟨a12, b12⟩ := mkN_mem i hc0 hc1 Var.alt
  obtain ⟨a13, b13⟩ := mkN_mem i hc0 hc1 Var.egfr
  obtain ⟨a14, b14⟩ := mkN_mem i hc0 hc1 Var.bmd_t
  obtain ⟨a15, b15⟩ := mkN_mem i hc0 hc1 Var.truage_delta
  obtain ⟨a16, b16⟩ := mkN_mem i hc0 hc1 Var.small_hdl
  obtain ⟨a17, b17⟩ := mkN_mem i hc0 hc1 Var.rem_pct
  obtain ⟨a18, b18⟩ := mkN_mem i hc0 hc1 Var.grip
  obtain ⟨a19, b19⟩ := mkN_mem i hc0 hc1 Var.swls
  obtain ⟨a20, b20⟩ := mkN_mem i hc0 hc1 Var.rpdqs
  have hs := map_sum_expand (mkN i c)
  have hsum0 : 0 ≤ (VAR_ORDER.map (mkN i c)).sum := by
    linarith [hs, a1, a2, a3, a4, a5, a6, a7, a8, a9, a10, a11, a12, a13,
      a14, a15, a16, a17, a18, a19, a20]
  have hsum1 : (VAR_ORDER.map (mkN i c)).sum ≤ 2000 := by
    linarith [hs, b1, b2, b3, b4, b5, b6, b7, b8, b9, b10, b11, b12, b13,
      b14, b15, b16, b17, b18, b19, b20]
  have hcomp : (mkResult i c).composite = (VAR_ORDER.map (mkN i c)).sum / 20 := rfl
  have hLQdef : (mkResult i c).LQ =
      max 300 (min 850 (300 + 5.5 * ((VAR_ORDER.map (mkN i c)).sum / 20))) := rfl
  have hN : ∀ v, (mkResult i c).N v = mkN i c v := fun _ => rfl
  have hLQ : (mkResult i c).LQ = 300 + 5.5 * (mkResult i c).composite := by
    rw [hLQdef, hcomp, min_eq_right (by linarith), max_eq_right (by linarith)]
  refine ⟨⟨?_, ?_⟩, hLQ, ?_⟩
  · rw [hcomp]; linarith
  · rw [hcomp]; linarith
  · intro h850 v
    rw [hLQ, hcomp] at h850
    have hsum : (VAR_ORDER.map (mkN i c)).sum = 2000 := by linarith
    rw [hN v]
    cases v <;>
    linarith [hs, hsum, a1, a2, a3, a4, a5, a6, a7, a8, a9, a10, a11, a12,
      a13, a14, a15, a16, a17, a18, a19, a20, b1, b2, b3, b4, b5, b6, b7,
      b8, b9, b10, b11, b12, b13, b14, b15, b16, b17, b18, b19, b20]

/-- Witness for C9: the all-zero input record with the piecewise CAC
method. -/
theorem C9_LQ_clamp_never_binds_w :
    (0 ≤ (mkResult testInputs 100).composite ∧
      (mkResult testInputs 100).composite ≤ 100) ∧
    (mkResult testInputs 100).LQ = 300 + 5.5 * (mkResult testInputs 100).composite ∧
    ((mkResult testInputs 100).LQ = 850 → ∀ v, (mkResult testInputs 100).N v = 100) :=
  C9_LQ_clamp_never_binds testInputs "piecewise" (mkResult testInputs 100) test_run

/-- C10: per-field noninterference — two raw input records that agree on
every variable except one identifier `k`, scored with the same CAC method,
yield records whose normalized sub-scores agree at every `j ≠ k`. -/
theorem C10_noninterference (i1 i2 : Var → ℝ) (m : String) (k : Var)
    (hagree : ∀ v, v ≠ k → i1 v = i2 v) (r1 r2 : ScoreResult)
    (h1 : compute_single i1 m = .ok r1) (h2 : compute_single i2 m = .ok r2)
    (j : Var) (hj : j ≠ k) : r1.N j = r2.N j := by
  obtain ⟨c1, hc1, rfl⟩ := compute_single_ok h1
  obtain ⟨c2, hc2, rfl⟩ := compute_single_ok h2
  cases j with
  | cac =>
      show c1 = c2
      have hcc := hagree Var.cac hj
      rw [hcc] at hc1
      rw [hc1] at hc2
      injection hc2 with h
  | rpdqs =>
      show normalize_rpdqs (i1 Var.rpdqs) = normalize_rpdqs (i2 Var.rpdqs)
      rw [hagree Var.rpdqs hj]
  | ogtt_2h =>
      show zScore (i1 Var.ogtt_2h) Var.ogtt_2h = zScore (i2 Var.ogtt_2h) Var.ogtt_2h
      rw [hagree Var.ogtt_2h hj]
  | apob =>
      show zScore (i1 Var.apob) Var.apob = zScore (i2 Var.apob) Var.apob
      rw [hagree Var.apob hj]
  | vo2max =>
      show zScore (i1 Var.vo2max) Var.vo2max = zScore (i2 Var.vo2max) Var.vo2max
      rw [hagree Var.vo2max hj]
  | crp =>
      show zScore (i1 Var.crp) Var.crp = zScore (i2 Var.crp) Var.crp
      rw [hagree Var.crp hj]
  | bmi =>
      show zScore (i1 Var.bmi) Var.bmi = zScore (i2 Var.bmi) Var.bmi
      rw [hagree Var.bmi hj]
  | packyrs =>
      show zScore (i1 Var.packyrs) Var.packyrs = zScore (i2 Var.packyrs) Var.packyrs
      rw [hagree Var.packyrs hj]
  | moca =>
      show zScore (i1 Var.moca) Var.moca = zScore (i2 Var.moca) Var.moca
      rw [hagree Var.moca hj]
  | mvpa =>
      show zScore (i1 Var.mvpa) Var.mvpa = zScore (i2 Var.mvpa) Var.mvpa
      rw [hagree Var.mvpa hj]
  | hrv =>
      show zScore (i1 Var.hrv) Var.hrv = zScore (i2 Var.hrv) Var.hrv
      rw [hagree Var.hrv hj]
  | phq9 =>
      show zScore (i1 Var.phq9) Var.phq9 = zScore (i2 Var.phq9) Var.phq9
      rw [hagree Var.phq9 hj]
  | alt =>
      show zScore (i1 Var.alt) Var.alt = zScore (i2 Var.alt) Var.alt
      rw [hagree Var.alt hj]
  | egfr =>
      show zScore (i1 Var.egfr) Var.egfr = zScore (i2 Var.egfr) Var.egfr
      rw [hagree Var.egfr hj]
  | bmd_t =>
      show zScore (i1 Var.bmd_t) Var.bmd_t = zScore (i2 Var.bmd_t) Var.bmd_t
      rw [hagree Var.bmd_t hj]
  | truage_delta =>
      show zScore (i1 Var.truage_delta) Var.truage_delta =
        zScore (i2 Var.truage_delta) Var.truage_delta
      rw [hagree Var.truage_delta hj]
  | small_hdl =>
      show zScore (i1 Var.small_hdl) Var.small_hdl = zScore (i2 Var.small_hdl) Var.small_hdl
      rw [hagree Var.small_hdl hj]
  | rem_pct =>
      show zScore (i1 Var.rem_pct) Var.rem_pct = zScore (i2 Var.rem_pct) Var.rem_pct
      rw [hagree Var.rem_pct hj]
  | grip =>
      show zScore (i1 Var.grip) Var.grip = zScore (i2 Var.grip) Var.grip
      rw [hagree Var.grip hj]
  | swls =>
      show zScore (i1 Var.swls) Var.swls = zScore (i2 Var.swls) Var.swls
      rw [hagree Var.swls hj]

/-- Witness for C10: two records differing only at `bmi`, compared at
`crp`. -/
theorem C10_noninterference_w :
    (mkResult testInputs 100).N Var.crp = (mkResult testInputs2 100).N Var.crp :=
  C10_noninterference testInputs testInputs2 "piecewise" Var.bmi
    (fun v hv => by
      cases v <;> first
        | exact absurd rfl hv
        | rfl)
    (mkResult testInputs 100) (mkResult testInputs2 100) test_run test_run2
    Var.crp (by decide)

/-- C4 counterexample: the source's `normalize_cac` performs no validation
at all — an unrecognized method string (here `"foo"`) silently selects the
piecewise branch and returns `0` for value `500` instead of failing with
`InvalidMethod`, and a negative value (`-5`) under the piecewise method
returns `100` instead of failing with `InvalidInput`. -/
theorem C4_counterexample :
    normalize_cac 500 "foo" = Except.ok 0 ∧
    normalize_cac (-5) "piecewise" = Except.ok 100 := by
  constructor
  · unfold normalize_cac
    rw [if_neg (by decide), if_neg (by norm_num : ¬(500:ℝ) = 0),
      if_pos (by norm_num : (400:ℝ) ≤ 500)]
  · unfold normalize_cac
    rw [if_neg (by decide), if_neg (by norm_num : ¬(-5:ℝ) = 0),
      if_neg (by norm_num : ¬(400:ℝ) ≤ -5), if_pos (by norm_num : (-5:ℝ) ≤ 100)]
    rw [show (100:ℝ) - 0.2 * (-5) = 101 by norm_num,
      show clamp (101:ℝ) 0 100 = 100 from by
        unfold clamp
        rw [min_eq_left (by norm_num), max_eq_right (by norm_num)]]

/-- C4 amended: `normalize_cac` never fails with `InvalidMethod` or
`InvalidInput`.  The method string `"ln"` selects the logarithmic
transform and every other method string (including `"logarithmic"`)
selects the piecewise transform; the computation succeeds for every value
unless the method is `"ln"` and `value ≤ -1` (a `math.log` domain error),
so in particular it succeeds for every `value ≥ 0` under any method. -/
theorem C4_amended (v : ℝ) (m : String) (hv : m = "ln" → -1 < v) :
    (∃ y, normalize_cac v m = Except.ok y) ∧
    (m ≠ "ln" → normalize_cac v m = normalize_cac v "piecewise") := by
  by_cases hm : m = "ln"
  · subst hm
    have h1 : -1 < v := hv rfl
    have heq : normalize_cac v "ln" =
        .ok (clamp (100 * normal_cdf (-(Real.log (v + 1) - Real.log 100))) 0 100) := by
      unfold normalize_cac
      rw [if_pos rfl, if_pos (by linarith)]
    exact ⟨⟨_, heq⟩, fun hne => absurd rfl hne⟩
  · constructor
    · unfold normalize_cac
      rw [if_neg hm]
      split_ifs <;> exact ⟨_, rfl⟩
    · intro _
      unfold normalize_cac
      rw [if_neg hm, if_neg (by decide : ¬("piecewise":String) = "ln")]

/-- Witness for C4 amended: the method string `"logarithmic"` with a
negative value succeeds and is routed to the piecewise branch. -/
theorem C4_amended_w :
    (∃ y, normalize_cac (-5) "logarithmic" = Except.ok y) ∧
    ("logarithmic" ≠ "ln" →
      normalize_cac (-5) "logarithmic" = normalize_cac (-5) "piecewise") :=
  C4_amended (-5) "logarithmic" (fun h => absurd h (by decide))

/-- C5 counterexample: the reference table `REF` has 18 entries (over the
20 identifiers of `VAR_ORDER`), not 17 as the claim states. -/
theorem C5_counterexample :
    (VAR_ORDER.filter (fun v => (REF v).isSome)).length = 18 ∧
    VAR_ORDER.length = 20 ∧ (18:Nat) ≠ 17 := by
  refine ⟨rfl, rfl, by decide⟩

/-- C5 amended: the Reference Table contains exactly 18 `(M, S, D)`
entries — one for each of the 20 variables except `cac` and `rpdqs` — and
`compute_single` applies the z-score normalizer to exactly those 18
variables. -/
theorem C5_amended :
    (VAR_ORDER.filter (fun v => (REF v).isSome)).length = 18 ∧
    VAR_ORDER.length = 20 ∧
    (∀ v : Var, v ∈ VAR_ORDER) ∧
    VAR_ORDER.Nodup ∧
    REF Var.cac = none ∧ REF Var.rpdqs = none ∧
    (∀ (i : Var → ℝ) (m : String) (r : ScoreResult),
      compute_single i m = .ok r → ∀ v : Var, v ≠ Var.cac → v ≠ Var.rpdqs →
        normalize_z (i v) v = .ok (r.N v)) := by
  refine ⟨rfl, rfl, ?_, by decide, rfl, rfl, ?_⟩
  · intro v
    cases v <;> decide
  · intro i m r h v hv1 hv2
    obtain ⟨c, hc, rfl⟩ := compute_single_ok h
    cases v <;> first
      | exact absurd rfl hv1
      | exact absurd rfl hv2
      | rfl

/-- Witness for C5 amended: the `bmi` sub-score of a successful run is
produced by the z-score normalizer. -/
theorem C5_amended_w :
    normalize_z (testInputs Var.bmi) Var.bmi = .ok ((mkResult testInputs 100).N Var.bmi) :=
  C5_amended.2.2.2.2.2.2 testInputs "piecewise" (mkResult testInputs 100) test_run
    Var.bmi (by decide) (by decide)

/-- C6: the piecewise CAC method maps `0` to `100`; every `value ≥ 400` to
`0`; every `0 < value ≤ 100` to `clamp(100 - 0.2*value)` (so `100 ↦ 80`);
and every `100 < value < 400` to `clamp(50 - 0.1*(value - 100))`. -/
theorem C6_piecewise_branches (v : ℝ) :
    (v = 0 → normalize_cac v "piecewise" = .ok 100) ∧
    (400 ≤ v → normalize_cac v "piecewise" = .ok 0) ∧
    (0 < v → v ≤ 100 → normalize_cac v "piecewise" = .ok (clamp (100 - 0.2 * v) 0 100)) ∧
    (100 < v → v < 400 →
      normalize_cac v "piecewise" = .ok (clamp (50 - 0.1 * (v - 100)) 0 100)) ∧
    (v = 100 → normalize_cac v "piecewise" = .ok 80) := by
  refine ⟨?_, ?_, ?_, ?_, ?_⟩
  · intro hv
    subst hv
    unfold normalize_cac
    rw [if_neg (by decide), if_pos rfl]
  · intro hv
    unfold normalize_cac
    rw [if_neg (by decide), if_neg (by intro h0; rw [h0] at hv; linarith), if_pos hv]
  · intro hv1 hv2
    unfold normalize_cac
    rw [if_neg (by decide), if_neg (ne_of_gt hv1), if_neg (by linarith), if_pos hv2]
  · intro hv1 hv2
    unfold normalize_cac
    rw [if_neg (by decide), if_neg (ne_of_gt (by linarith : (0:ℝ) < v)),
      if_neg (by linarith), if_neg (by linarith)]
  · intro hv
    subst hv
    unfold normalize_cac
    rw [if_neg (by decide), if_neg (by norm_num : ¬(100:ℝ) = 0),
      if_neg (by norm_num : ¬(400:ℝ) ≤ 100), if_pos (by norm_num : (100:ℝ) ≤ 100),
      show (100:ℝ) - 0.2 * 100 = 80 by norm_num,
      clamp_of_mem (by norm_num) (by norm_num)]

/-- Witness for C6: the boundary and interior inputs 0, 400, 500, 100, 50
and 200 under the piecewise method. -/
theorem C6_piecewise_branches_w :
    normalize_cac 0 "piecewise" = .ok 100 ∧
    normalize_cac 400 "piecewise" = .ok 0 ∧
    normalize_cac 500 "piecewise" = .ok 0 ∧
    normalize_cac 100 "piecewise" = .ok 80 ∧
    normalize_cac 50 "piecewise" = .ok (clamp (100 - 0.2 * 50) 0 100) ∧
    normalize_cac 200 "piecewise" = .ok (clamp (50 - 0.1 * (200 - 100)) 0 100) :=
  ⟨(C6_piecewise_branches 0).1 rfl,
   (C6_piecewise_branches 400).2.1 (by norm_num),
   (C6_piecewise_branches 500).2.1 (by norm_num),
   (C6_piecewise_branches 100).2.2.2.2 rfl,
   (C6_piecewise_branches 50).2.2.1 (by norm_num) (by norm_num),
   (C6_piecewise_branches 200).2.2.2.1 (by norm_num) (by norm_num)⟩

lemma contExp : Continuous fun t : ℝ => Real.exp (-(t ^ 2)) :=
  Real.continuous_exp.comp (continuous_pow 2).neg

lemma intervalIntble (a b : ℝ) :
    IntervalIntegrable (fun t : ℝ => Real.exp (-(t ^ 2))) volume a b :=
  contExp.intervalIntegrable a b

lemma sqrtPi_pos : 0 < Real.sqrt Real.pi := Real.sqrt_pos.mpr Real.pi_pos

lemma erf_coeff_pos : (0:ℝ) < 2 / Real.sqrt Real.pi := by positivity

lemma intIntegral_mono {x y : ℝ} (h : x ≤ y) :
    (∫ t in (0:ℝ)..x, Real.exp (-(t ^ 2))) ≤ ∫ t in (0:ℝ)..y, Real.exp (-(t ^ 2)) := by
  have hadd := intervalIntegral.integral_add_adjacent_intervals
    (intervalIntble 0 x) (intervalIntble x y)
  have hnn : 0 ≤ ∫ t in x..y, Real.exp (-(t ^ 2)) :=
    intervalIntegral.integral_nonneg h (fun u _ => (Real.exp_pos _).le)
  linarith

lemma intIntegral_strict {x y : ℝ} (h : x < y) :
    (∫ t in (0:ℝ)..x, Real.exp (-(t ^ 2))) < ∫ t in (0:ℝ)..y, Real.exp (-(t ^ 2)) := by
  have hadd := intervalIntegral.integral_add_adjacent_intervals
    (intervalIntble 0 x) (intervalIntble x y)
  have hpos : 0 < ∫ t in x..y, Real.exp (-(t ^ 2)) :=
    intervalIntegral.intervalIntegral_pos_of_pos (intervalIntble x y)
      (fun t => Real.exp_pos _) h
  linarith

lemma erf_monotone : Monotone erf := by
  intro x y h
  unfold erf
  exact mul_le_mul_of_nonneg_left (intIntegral_mono h) erf_coeff_pos.le

lemma erf_strictMono : StrictMono erf := by
  intro x y h
  unfold erf
  exact mul_lt_mul_of_pos_left (intIntegral_strict h) erf_coeff_pos

lemma erf_zero : erf 0 = 0 := by
  unfold erf
  rw [intervalIntegral.integral_same, mul_zero]

lemma erf_neg (x : ℝ) : erf (-x) = -erf x := by
  have h1 : (∫ t in (0:ℝ)..x, Real.exp (-((-t) ^ 2))) =
      ∫ t in (-x)..(-(0:ℝ)), Real.exp (-(t ^ 2)) :=
    intervalIntegral.integral_comp_neg (fun t => Real.exp (-(t ^ 2)))
  simp only [neg_sq, neg_zero] at h1
  have h2 : (∫ t in (-x)..(0:ℝ), Real.exp (-(t ^ 2))) =
      -∫ t in (0:ℝ)..(-x), Real.exp (-(t ^ 2)) :=
    intervalIntegral.integral_symm 0 (-x)
  have h3 : (∫ t in (0:ℝ)..(-x), Real.exp (-(t ^ 2))) =
      -∫ t in (0:ℝ)..x, Real.exp (-(t ^ 2)) := by linarith
  unfold erf
  rw [h3, mul_neg]

lemma gauss_integrable : Integrable (fun t : ℝ => Real.exp (-(t ^ 2))) := by
  have h1 : (0:ℝ) < 1 := one_pos
  have h2 := integrable_exp_neg_mul_sq h1
  simpa using h2

lemma gauss_Ioi : (∫ t in Ioi (0:ℝ), Real.exp (-(t ^ 2))) = Real.sqrt Real.pi / 2 := by
  have h := integral_gaussian_Ioi 1
  simpa using h

lemma intIntegral_lt_gauss (x : ℝ) :
    (∫ t in (0:ℝ)..x, Real.exp (-(t ^ 2))) < Real.sqrt Real.pi / 2 := by
  rcases le_or_lt x 0 with hx | hx
  · have h0 : (∫ t in (0:ℝ)..x, Real.exp (-(t ^ 2))) ≤ 0 := by
      have := intIntegral_mono hx
      rwa [intervalIntegral.integral_same] at this
    have : (0:ℝ) < Real.sqrt Real.pi / 2 := by positivity
    linarith
  · have hIoc : (∫ t in (0:ℝ)..x, Real.exp (-(t ^ 2))) =
        ∫ t in Ioc (0:ℝ) x, Real.exp (-(t ^ 2)) :=
      intervalIntegral.integral_of_le hx.le
    have hu : Ioc (0:ℝ) x ∪ Ioi x = Ioi 0 := Ioc_union_Ioi_eq_Ioi hx.le
    have hsplit : (∫ t in Ioi (0:ℝ), Real.exp (-(t ^ 2))) =
        (∫ t in Ioc (0:ℝ) x, Real.exp (-(t ^ 2))) +
          ∫ t in Ioi x, Real.exp (-(t ^ 2)) := by
      rw [← hu]
      exact setIntegral_union Ioc_disjoint_Ioi_same measurableSet_Ioi
        gauss_integrable.integrableOn gauss_integrable.integrableOn
    have htail : 0 < ∫ t in Ioi x, Real.exp (-(t ^ 2)) := by
      have hsub : (∫ t in Ioc x (x + 1), Real.exp (-(t ^ 2))) ≤
          ∫ t in Ioi x, Real.exp (-(t ^ 2)) :=
        setIntegral_mono_set gauss_integrable.integrableOn
          (ae_of_all _ (fun t => (Real.exp_pos _).le))
          (HasSubset.Subset.eventuallyLE Ioc_subset_Ioi_self)
      have hpos : 0 < ∫ t in Ioc x (x + 1), Real.exp (-(t ^ 2)) := by
        rw [← intervalIntegral.integral_of_le (by linarith : x ≤ x + 1)]
        exact intervalIntegral.intervalIntegral_pos_of_pos (intervalIntble x (x + 1))
          (fun t => Real.exp_pos _) (by linarith)
      linarith
    rw [hIoc]
    rw [gauss_Ioi] at hsplit
    linarith

lemma erf_lt_one (x : ℝ) : erf x < 1 := by
  unfold erf
  have h := intIntegral_lt_gauss x
  have h2 : (2 / Real.sqrt Real.pi) * (Real.sqrt Real.pi / 2) = 1 := by
    field_simp
  calc (2 / Real.sqrt Real.pi) * ∫ t in (0:ℝ)..x, Real.exp (-(t ^ 2))
      < (2 / Real.sqrt Real.pi) * (Real.sqrt Real.pi / 2) :=
        mul_lt_mul_of_pos_left h erf_coeff_pos
    _ = 1 := h2

lemma neg_one_lt_erf (x : ℝ) : -1 < erf x := by
  have h := erf_lt_one (-x)
  rw [erf_neg] at h
  linarith

lemma sqrt_two_pos : (0:ℝ) < Real.sqrt 2 := Real.sqrt_pos.mpr (by norm_num)

lemma normal_cdf_strictMono : StrictMono normal_cdf := by
  intro z1 z2 h
  unfold normal_cdf
  have hd : z1 / Real.sqrt 2 < z2 / Real.sqrt 2 :=
    (div_lt_div_iff_of_pos_right sqrt_two_pos).mpr h
  have := erf_strictMono hd
  linarith

lemma normal_cdf_monotone : Monotone normal_cdf := normal_cdf_strictMono.monotone

lemma normal_cdf_pos (z : ℝ) : 0 < normal_cdf z := by
  unfold normal_cdf
  have := neg_one_lt_erf (z / Real.sqrt 2)
  linarith

lemma normal_cdf_lt_one (z : ℝ) : normal_cdf z < 1 := by
  unfold normal_cdf
  have := erf_lt_one (z / Real.sqrt 2)
  linarith

lemma normal_cdf_zero : normal_cdf 0 = 1 / 2 := by
  unfold normal_cdf
  rw [zero_div, erf_zero]
  norm_num

lemma REF_S_pos (key : Var) (p : VarSpec) (hp : REF key = some p) : 0 < p.S := by
  cases key <;> simp only [REF] at hp <;> first
    | exact Option.noConfusion hp
    | (injection hp with h; subst h; norm_num)

/-- C3: for every finite `x` and every Reference Table entry, `normalize_z`
returns exactly `clamp(100 * Φ(D * (x - M) / S), 0, 100)`, and at `x = M`
the result is exactly `50`, independent of the direction. -/
theorem C3_normalize_z_formula (x : ℝ) (key : Var) (p : VarSpec)
    (hp : REF key = some p) :
    normalize_z x key = .ok (clamp (100 * normal_cdf (p.D * ((x - p.M) / p.S))) 0 100) ∧
    (x = p.M → normalize_z x key = .ok 50) := by
  have heq : normalize_z x key =
      .ok (clamp (100 * normal_cdf (p.D * ((x - p.M) / p.S))) 0 100) := by
    unfold normalize_z
    rw [hp]
  refine ⟨heq, ?_⟩
  intro hx
  subst hx
  rw [heq, sub_self, zero_div, mul_zero, normal_cdf_zero,
    show (100:ℝ) * (1 / 2) = 50 by norm_num,
    clamp_of_mem (by norm_num) (by norm_num)]

/-- Witness for C3: the `ogtt_2h` entry, evaluated at its mean `120`. -/
theorem C3_normalize_z_formula_w :
    REF Var.ogtt_2h = some ⟨120, 35, -1⟩ ∧
    normalize_z 120 Var.ogtt_2h = .ok 50 :=
  ⟨rfl, (C3_normalize_z_formula 120 Var.ogtt_2h ⟨120, 35, -1⟩ rfl).2 rfl⟩

/-- C8: for every Reference Table entry and `x1 ≤ x2`, `normalize_z` is
non-decreasing in the raw value when the entry's direction is `+1` and
non-increasing when it is `-1`. -/
theorem C8_normalize_z_monotone (key : Var) (p : VarSpec) (hp : REF key = some p)
    (x1 x2 : ℝ) (hx : x1 ≤ x2) (y1 y2 : ℝ)
    (h1 : normalize_z x1 key = .ok y1) (h2 : normalize_z x2 key = .ok y2) :
    (p.D = 1 → y1 ≤ y2) ∧ (p.D = -1 → y2 ≤ y1) := by
  have hS : 0 < p.S := REF_S_pos key p hp
  have e1 : y1 = clamp (100 * normal_cdf (p.D * ((x1 - p.M) / p.S))) 0 100 := by
    unfold normalize_z at h1
    rw [hp] at h1
    injection h1 with h
    exact h.symm
  have e2 : y2 = clamp (100 * normal_cdf (p.D * ((x2 - p.M) / p.S))) 0 100 := by
    unfold normalize_z at h2
    rw [hp] at h2
    injection h2 with h
    exact h.symm
  have hdiv : (x1 - p.M) / p.S ≤ (x2 - p.M) / p.S :=
    (div_le_div_iff_of_pos_right hS).mpr (by linarith)
  constructor
  · intro hD
    rw [e1, e2, hD, one_mul, one_mul]
    exact clamp_le_clamp 0 100
      (mul_le_mul_of_nonneg_left (normal_cdf_monotone hdiv) (by norm_num))
  · intro hD
    rw [e1, e2, hD, neg_one_mul, neg_one_mul]
    exact clamp_le_clamp 0 100
      (mul_le_mul_of_nonneg_left (normal_cdf_monotone (neg_le_neg hdiv)) (by norm_num))

/-- Witness for C8: the `vo2max` entry (direction `+1`) at raw values `30`
and `40`. -/
theorem C8_normalize_z_monotone_w :
    (clamp (100 * normal_cdf (1 * ((30 - 36) / 8))) 0 100 : ℝ) ≤
      clamp (100 * normal_cdf (1 * ((40 - 36) / 8))) 0 100 :=
  (C8_normalize_z_monotone Var.vo2max ⟨36, 8, 1⟩ rfl 30 40 (by norm_num) _ _ rfl rfl).1 rfl

/-- C7: under the `"ln"` method, `normalize_cac` returns exactly
`clamp(100 * Φ(-(ln(value+1) - ln 100)), 0, 100)`; on `value ≥ 0` it is
strictly decreasing, and every output lies in `[0, 100]`. -/
theorem C7_ln_strictly_decreasing (v1 v2 y1 y2 : ℝ) (h0 : 0 ≤ v1) (h12 : v1 < v2)
    (h1 : normalize_cac v1 "ln" = .ok y1) (h2 : normalize_cac v2 "ln" = .ok y2) :
    y1 = clamp (100 * normal_cdf (-(Real.log (v1 + 1) - Real.log 100))) 0 100 ∧
    y2 < y1 ∧ 0 ≤ y2 ∧ y2 ≤ 100 ∧ 0 ≤ y1 ∧ y1 ≤ 100 := by
  have e1 : y1 = clamp (100 * normal_cdf (-(Real.log (v1 + 1) - Real.log 100))) 0 100 := by
    unfold normalize_cac at h1
    rw [if_pos rfl, if_pos (by linarith)] at h1
    injection h1 with h
    exact h.symm
  have e2 : y2 = clamp (100 * normal_cdf (-(Real.log (v2 + 1) - Real.log 100))) 0 100 := by
    unfold normalize_cac at h2
    rw [if_pos rfl, if_pos (by linarith)] at h2
    injection h2 with h
    exact h.symm
  have hlog : Real.log (v1 + 1) < Real.log (v2 + 1) :=
    Real.log_lt_log (by linarith) (by linarith)
  have hz : -(Real.log (v2 + 1) - Real.log 100) < -(Real.log (v1 + 1) - Real.log 100) := by
    linarith
  have hphi := normal_cdf_strictMono hz
  have hp1a := normal_cdf_pos (-(Real.log (v1 + 1) - Real.log 100))
  have hp1b := normal_cdf_lt_one (-(Real.log (v1 + 1) - Real.log 100))
  have hp2a := normal_cdf_pos (-(Real.log (v2 + 1) - Real.log 100))
  have hp2b := normal_cdf_lt_one (-(Real.log (v2 + 1) - Real.log 100))
  have c1 : clamp (100 * normal_cdf (-(Real.log (v1 + 1) - Real.log 100))) 0 100 =
      100 * normal_cdf (-(Real.log (v1 + 1) - Real.log 100)) :=
    clamp_of_mem (by linarith) (by linarith)
  have c2 : clamp (100 * normal_cdf (-(Real.log (v2 + 1) - Real.log 100))) 0 100 =
      100 * normal_cdf (-(Real.log (v2 + 1) - Real.log 100)) :=
    clamp_of_mem (by linarith) (by linarith)
  refine ⟨e1, ?_, ?_, ?_, ?_, ?_⟩
  · rw [e1, e2, c1, c2]
    linarith
  · rw [e2]
    exact (clamp_mem _ (by norm_num)).1
  · rw [e2]
    exact (clamp_mem _ (by norm_num)).2
  · rw [e1]
    exact (clamp_mem _ (by norm_num)).1
  · rw [e1]
    exact (clamp_mem _ (by norm_num)).2

lemma ln_run_0 : normalize_cac 0 "ln" =
    .ok (clamp (100 * normal_cdf (-(Real.log (0 + 1) - Real.log 100))) 0 100) := by
  unfold normalize_cac
  rw [if_pos rfl, if_pos (by norm_num)]

lemma ln_run_99 : normalize_cac 99 "ln" =
    .ok (clamp (100 * normal_cdf (-(Real.log (99 + 1) - Real.log 100))) 0 100) := by
  unfold normalize_cac
  rw [if_pos rfl, if_pos (by norm_num)]

/-- Witness for C7: raw values `0` and `99` under the `"ln"` method. -/
theorem C7_ln_strictly_decreasing_w :
    clamp (100 * normal_cdf (-(Real.log ((0:ℝ) + 1) - Real.log 100))) 0 100 =
      clamp (100 * normal_cdf (-(Real.log ((0:ℝ) + 1) - Real.log 100))) 0 100 ∧
    clamp (100 * normal_cdf (-(Real.log ((99:ℝ) + 1) - Real.log 100))) 0 100 <
      clamp (100 * normal_cdf (-(Real.log ((0:ℝ) + 1) - Real.log 100))) 0 100 ∧
    0 ≤ clamp (100 * normal_cdf (-(Real.log ((99:ℝ) + 1) - Real.log 100))) 0 100 ∧
    clamp (100 * normal_cdf (-(Real.log ((99:ℝ) + 1) - Real.log 100))) 0 100 ≤ 100 ∧
    0 ≤ clamp (100 * normal_cdf (-(Real.log ((0:ℝ) + 1) - Real.log 100))) 0 100 ∧
    clamp (100 * normal_cdf (-(Real.log ((0:ℝ) + 1) - Real.log 100))) 0 100 ≤ 100 :=
  C7_ln_strictly_decreasing 0 99 _ _ le_rfl (by norm_num) ln_run_0 ln_run_99

end LQ
